import Mathlib

/-!
Verification of the slice-boundary selection core of a PDF reader
(`whitespaceDetector.ts`): a whitespace gap detector over pixel buffers and
a greedy cut-point selector.  Machine numbers of the source are modelled as
rationals; the potentially non-terminating even-cut fallback loop is
modelled with explicit fuel, returning `none` exactly when no amount of
fuel makes the loop finish.
-/

set_option maxHeartbeats 4000000
set_option maxRecDepth 10000

/-- JavaScript `Math.round` on nonnegative values: round half up. -/
def jsRound (x : ℚ) : ℚ := ((⌊x + 1/2⌋ : ℤ) : ℚ)

/-- A pixel buffer: width, height, and the flat RGBA byte array, addressed as
`data (row * width * 4 + col * 4 + channel)`. -/
structure ImageData where
  width : ℕ
  height : ℕ
  data : ℕ → ℕ

/-- Detection configuration (`DetectionConfig` of the source). -/
structure DetectionConfig where
  whitespaceThreshold : ℚ
  minGapHeight : ℚ
  edgeMargin : ℚ
  centerBias : ℚ
deriving DecidableEq

/-- `DEFAULT_CONFIG` of the source. -/
def DEFAULT_CONFIG : DetectionConfig :=
  { whitespaceThreshold := 95/100
    minGapHeight := 15
    edgeMargin := 50
    centerBias := 2/10 }

/-- `Partial<DetectionConfig>`: caller-supplied overrides. -/
structure PartialDetectionConfig where
  whitespaceThreshold : Option ℚ := none
  minGapHeight : Option ℚ := none
  edgeMargin : Option ℚ := none
  centerBias : Option ℚ := none
deriving DecidableEq

/-- The shallow merge `{ ...DEFAULT_CONFIG, ...config }`. -/
def mergeConfig (config : PartialDetectionConfig) : DetectionConfig :=
  { whitespaceThreshold := config.whitespaceThreshold.getD DEFAULT_CONFIG.whitespaceThreshold
    minGapHeight := config.minGapHeight.getD DEFAULT_CONFIG.minGapHeight
    edgeMargin := config.edgeMargin.getD DEFAULT_CONFIG.edgeMargin
    centerBias := config.centerBias.getD DEFAULT_CONFIG.centerBias }

/-- The empty override object `{}`. -/
def noOverrides : PartialDetectionConfig := {}

/-- A whitespace gap (`WhitespaceGap` of the source). -/
structure WhitespaceGap where
  startY : ℕ
  endY : ℕ
  height : ℚ
  centerY : ℚ
  score : ℚ
deriving DecidableEq

/-- `analyzeRow`: fraction of pixels of row `y` whose mean RGB brightness,
normalized to `[0,1]`, exceeds `0.9`. -/
def analyzeRow (imageData : ImageData) (y : ℕ) : ℚ :=
  let rowStart := y * imageData.width * 4
  let whitePx : ℕ := (List.range imageData.width).countP (fun x =>
    let idx := rowStart + x * 4
    let r := imageData.data idx
    let g := imageData.data (idx + 1)
    let b := imageData.data (idx + 2)
    decide ((9/10 : ℚ) < ((r + g + b : ℕ) : ℚ) / 3 / 255))
  (whitePx : ℚ) / (imageData.width : ℚ)

/-- `detectWhitespaceRows`: classify each row, `true` = whitespace. -/
def detectWhitespaceRows (imageData : ImageData) (config : DetectionConfig) : List Bool :=
  (List.range imageData.height).map (fun y =>
    decide (config.whitespaceThreshold ≤ analyzeRow imageData y))

/-- Building the gap record pushed by `findGaps` for the run `[gapStart, y)`:
height, center, and the size/center score product. -/
def mkGap (gapStart y : ℕ) (pageHeight : ℚ) (config : DetectionConfig) : WhitespaceGap :=
  let gapHeight : ℚ := (y : ℚ) - (gapStart : ℚ)
  let centerY : ℚ := (gapStart : ℚ) + gapHeight / 2
  let sizeScore : ℚ := min (gapHeight / 50) 1
  let normalizedY : ℚ := centerY / pageHeight
  let centerScore : ℚ := 1 - |normalizedY - 1/2| * config.centerBias
  { startY := gapStart
    endY := y
    height := gapHeight
    centerY := centerY
    score := sizeScore * centerScore }

/-- The scan loop of `findGaps`: walk the row classifications with the current
index `y` and the open-run state `gapStart` (`null` = `none`).  A run is
emitted only when a non-whitespace row closes it and it passes the
`minGapHeight` and edge-margin filters. -/
def findGapsAux (pageHeight : ℚ) (config : DetectionConfig) :
    List Bool → ℕ → Option ℕ → List WhitespaceGap
  | [], _, _ => []
  | w :: rest, y, gapStart =>
    if w then
      findGapsAux pageHeight config rest (y + 1) (some (gapStart.getD y))
    else
      match gapStart with
      | none => findGapsAux pageHeight config rest (y + 1) none
      | some s =>
        let g := mkGap s y pageHeight config
        if config.minGapHeight ≤ g.height then
          if config.edgeMargin < g.centerY ∧ g.centerY < pageHeight - config.edgeMargin then
            g :: findGapsAux pageHeight config rest (y + 1) none
          else
            findGapsAux pageHeight config rest (y + 1) none
        else
          findGapsAux pageHeight config rest (y + 1) none

/-- `findGaps`: contiguous whitespace runs qualifying as gaps. -/
def findGaps (whitespaceRows : List Bool) (pageHeight : ℚ)
    (config : DetectionConfig) : List WhitespaceGap :=
  findGapsAux pageHeight config whitespaceRows 0 none

/-- The spec's `detectGaps(pixelBuffer, config)` interface: row classification
followed by gap formation, exactly as `findCutPoints` composes them. -/
def detectGaps (imageData : ImageData) (config : DetectionConfig) : List WhitespaceGap :=
  findGaps (detectWhitespaceRows imageData config) (imageData.height : ℚ) config

/-- Stable insertion of a gap into a list sorted by `centerY`. -/
def insertByCenter (g : WhitespaceGap) : List WhitespaceGap → List WhitespaceGap
  | [] => [g]
  | h :: t => if g.centerY ≤ h.centerY then g :: h :: t else h :: insertByCenter g t

/-- The stable sort by ascending `centerY`
(`[...gaps].sort((a, b) => a.centerY - b.centerY)`). -/
def sortGaps : List WhitespaceGap → List WhitespaceGap
  | [] => []
  | h :: t => insertByCenter h (sortGaps t)

/-- The selection loop of `findCutPoints` over the sorted gaps, carrying the
accumulated `cutPoints` and `lastCut`. -/
def selectLoop (targetSliceHeight : ℚ) :
    List WhitespaceGap → List ℚ → ℚ → List ℚ × ℚ
  | [], cutPoints, lastCut => (cutPoints, lastCut)
  | gap :: rest, cutPoints, lastCut =>
    let distanceFromLastCut := gap.centerY - lastCut
    if targetSliceHeight * (1/2) ≤ distanceFromLastCut then
      selectLoop targetSliceHeight rest (cutPoints ++ [jsRound gap.centerY]) gap.centerY
    else if targetSliceHeight * 1 ≤ distanceFromLastCut ∧ (2/10 : ℚ) < gap.score then
      selectLoop targetSliceHeight rest (cutPoints ++ [jsRound gap.centerY]) gap.centerY
    else
      selectLoop targetSliceHeight rest cutPoints lastCut

/-- Instrumentation of the selection loop: `true` iff the secondary
force-accept branch (`distance ≥ 1.0·T` and `score > 0.2`) is ever taken. -/
def selectLoopForced (targetSliceHeight : ℚ) :
    List WhitespaceGap → ℚ → Bool
  | [], _ => false
  | gap :: rest, lastCut =>
    let distanceFromLastCut := gap.centerY - lastCut
    if targetSliceHeight * (1/2) ≤ distanceFromLastCut then
      selectLoopForced targetSliceHeight rest gap.centerY
    else if targetSliceHeight * 1 ≤ distanceFromLastCut ∧ (2/10 : ℚ) < gap.score then
      true
    else
      selectLoopForced targetSliceHeight rest lastCut

/-- The `while (current < height - targetHeight * 0.3)` loop of
`generateEvenCuts`, with explicit fuel; `none` models non-termination of the
source loop (no fuel value can produce it, see `evenCutsAux_none_of_nonpos`). -/
def evenCutsAux (height targetHeight : ℚ) : ℕ → ℚ → Option (List ℚ)
  | fuel, current =>
    if current < height - targetHeight * (3/10) then
      match fuel with
      | 0 => none
      | fuel' + 1 =>
        (evenCutsAux height targetHeight fuel' (current + targetHeight)).map
          (fun cuts => jsRound current :: cuts)
    else
      some []

/-- Fuel sufficient for `evenCutsAux` whenever the loop terminates at all. -/
def evenCutsFuel (height targetHeight : ℚ) : ℕ :=
  if 0 < targetHeight then (⌈height / targetHeight⌉).toNat + 1 else 0

/-- `generateEvenCuts`: evenly spaced cuts `[0, round T, round 2T, ..., H]`;
`none` when the source loop diverges. -/
def generateEvenCuts (height targetHeight : ℚ) : Option (List ℚ) :=
  (evenCutsAux height targetHeight (evenCutsFuel height targetHeight) targetHeight).map
    (fun mids => 0 :: mids ++ [height])

/-- `findCutPoints`: detect rows, form gaps, and either fall back to even
cuts or greedily select cut positions from the sorted gaps, then close the
sequence at the page end.  `none` models divergence of the fallback loop. -/
def findCutPoints (imageData : ImageData) (targetSliceHeight : ℚ)
    (config : PartialDetectionConfig) : Option (List ℚ) :=
  let mergedConfig := mergeConfig config
  let height := imageData.height
  let whitespaceRows := detectWhitespaceRows imageData mergedConfig
  let gaps := findGaps whitespaceRows (height : ℚ) mergedConfig
  if gaps.isEmpty then
    generateEvenCuts (height : ℚ) targetSliceHeight
  else
    let sortedGaps := sortGaps gaps
    let r := selectLoop targetSliceHeight sortedGaps [0] 0
    some (if (height : ℚ) - r.2 > targetSliceHeight * (3/10) then
            r.1 ++ [(height : ℚ)]
          else
            r.1.dropLast ++ [(height : ℚ)])

/-- The spec's validity contract on a cut-point sequence for a page of height
`H`: at least two elements, strictly increasing, first `0`, last `H`. -/
def specCutsValid (H : ℕ) (cuts : List ℚ) : Prop :=
  2 ≤ cuts.length ∧ cuts.Chain' (· < ·) ∧
    cuts.head? = some 0 ∧ cuts.getLast? = some (H : ℚ)

instance (H : ℕ) (cuts : List ℚ) : Decidable (specCutsValid H cuts) := by
  unfold specCutsValid; infer_instance

/-- Validity contract lifted to the optional result of `findCutPoints`
(`none`, i.e. divergence, is invalid). -/
def specCutsOk (H : ℕ) : Option (List ℚ) → Prop
  | some cuts => specCutsValid H cuts
  | none => False

instance (H : ℕ) (o : Option (List ℚ)) : Decidable (specCutsOk H o) := by
  cases o <;> unfold specCutsOk <;> infer_instance

/-- Number of loop iterations of the even-cut fallback still to run when the
cursor stands at `(j+1)·T`. -/
def midsRemaining (height targetHeight : ℚ) (j : ℕ) : ℕ :=
  (⌈(height - targetHeight * (3/10)) / targetHeight⌉ - 1 - (j : ℤ)).toNat

/-- Even-cut sequence as described by the spec: cuts at `T, 2T, ...` (rounded
to pixel rows), stopping once the remaining distance to `H` is at most
`0.3·T`, preceded by `0` and terminated by `H`. -/
def specEvenCuts (height targetHeight : ℚ) : List ℚ :=
  0 :: ((List.range (midsRemaining height targetHeight 0)).map
    (fun k => jsRound (((k + 1 : ℕ) : ℚ) * targetHeight))) ++ [height]

/-- Test buffer builder: height `H`, width `W`, rows from `whiteRow` rendered
as pure white (255,255,255) or pure black (0,0,0), alpha 255. -/
def mkRowImage (H W : ℕ) (whiteRow : ℕ → Bool) : ImageData :=
  { width := W
    height := H
    data := fun idx =>
      if whiteRow (idx / (W * 4)) then 255
      else if idx % 4 = 3 then 255 else 0 }

/-! ### Concrete test buffers -/

/-- An entirely black buffer of height `H`, width 1. -/
def darkImg (H : ℕ) : ImageData := mkRowImage H 1 (fun _ => false)

/-- An entirely white buffer of height `H`, width 1. -/
def whiteImg (H : ℕ) : ImageData := mkRowImage H 1 (fun _ => true)

/-- 200px page with a single 40px white band at rows 80–119 (center 100). -/
def bandImg80 : ImageData := mkRowImage 200 1 (fun y => decide (80 ≤ y ∧ y < 120))

/-- 200px page with a single 40px white band at rows 100–139 (center 120). -/
def bandImg100 : ImageData := mkRowImage 200 1 (fun y => decide (100 ≤ y ∧ y < 140))

/-- Scenario B buffer: 1000px page, two 20px white bands centered at 300 and 700. -/
def scenarioBImg : ImageData :=
  mkRowImage 1000 1 (fun y => decide ((290 ≤ y ∧ y < 310) ∨ (690 ≤ y ∧ y < 710)))

/-- Scenario B row classification: rows 290–309 and 690–709 are whitespace. -/
def scenarioBRows : List Bool :=
  (List.range 1000).map (fun y => decide ((290 ≤ y ∧ y < 310) ∨ (690 ≤ y ∧ y < 710)))

/-- 100px page with a 16px white band at rows 80–95 (center 88). -/
def bandImg80of100 : ImageData := mkRowImage 100 1 (fun y => decide (80 ≤ y ∧ y < 96))

/-- A configuration within the spec's constraints but with a large center bias. -/
def biasedConfig : DetectionConfig := ⟨95/100, 15, 0, 10⟩

/-- Final open-run state of the gap scan after consuming a prefix of the
row classifications (mirrors the `gapStart` variable of `findGaps`). -/
def scanState : List Bool → ℕ → Option ℕ → Option ℕ
  | [], _, gapStart => gapStart
  | w :: rest, y, gapStart =>
    if w then scanState rest (y + 1) (some (gapStart.getD y))
    else scanState rest (y + 1) none

/-- Configuration for the gap-filtering witness: default threshold and
minimum gap height, margin 20, default bias. -/
def gapFilterCfg : DetectionConfig := ⟨95/100, 15, 20, 2/10⟩

/-- 10px page with a 4px white band at rows 3–6 (center 5). -/
def smallBandImg : ImageData := mkRowImage 10 1 (fun y => decide (3 ≤ y ∧ y < 7))

/-- 10px page with a 3px white band at rows 6–8 (center 7.5). -/
def smallLateBandImg : ImageData := mkRowImage 10 1 (fun y => decide (6 ≤ y ∧ y < 9))

/-- Configuration within the spec's stated constraints but with a large
center bias (10). -/
def smallBiasedConfig : DetectionConfig := ⟨95/100, 3, 0, 10⟩

/-! ### Rounding lemmas -/

lemma jsRound_zero : jsRound 0 = 0 := by
  norm_num [jsRound]

lemma jsRound_mono {a b : ℚ} (h : a ≤ b) : jsRound a ≤ jsRound b := by
  unfold jsRound
  exact_mod_cast Int.floor_mono (by linarith)

lemma jsRound_add_one_le {a b : ℚ} (h : a + 1 ≤ b) : jsRound a + 1 ≤ jsRound b := by
  unfold jsRound
  have h2 : ⌊a + 1/2⌋ + 1 ≤ ⌊b + 1/2⌋ := by
    have h3 : ⌊a + 1/2 + ((1 : ℤ) : ℚ)⌋ ≤ ⌊b + 1/2⌋ := Int.floor_mono (by push_cast; linarith)
    rwa [Int.floor_add_int] at h3
  exact_mod_cast h2

lemma jsRound_add_two_le {a b : ℚ} (h : a + 2 ≤ b) : jsRound a + 2 ≤ jsRound b := by
  unfold jsRound
  have h2 : ⌊a + 1/2⌋ + 2 ≤ ⌊b + 1/2⌋ := by
    have h3 : ⌊a + 1/2 + ((2 : ℤ) : ℚ)⌋ ≤ ⌊b + 1/2⌋ := Int.floor_mono (by push_cast; linarith)
    rwa [Int.floor_add_int] at h3
  exact_mod_cast h2

lemma one_le_jsRound {a : ℚ} (h : 1/2 ≤ a) : 1 ≤ jsRound a := by
  unfold jsRound
  have h2 : (1 : ℤ) ≤ ⌊a + 1/2⌋ := by
    rw [Int.le_floor]; push_cast; linarith
  exact_mod_cast h2

lemma jsRound_lt_natCast {a : ℚ} {n : ℕ} (h : a + 1/2 < (n : ℚ)) : jsRound a < (n : ℚ) := by
  unfold jsRound
  have h2 : ⌊a + 1/2⌋ < ((n : ℕ) : ℤ) := by
    rw [Int.floor_lt]; push_cast; linarith
  exact_mod_cast h2

lemma jsRound_le_natCast_sub_one {a : ℚ} {n : ℕ} (h : a ≤ (n : ℚ) - 3/2) :
    jsRound a ≤ (n : ℚ) - 1 := by
  unfold jsRound
  have h2 : ⌊a + 1/2⌋ < ((n : ℕ) : ℤ) := by
    rw [Int.floor_lt]; push_cast; linarith
  have h3 : ⌊a + 1/2⌋ ≤ ((n : ℕ) : ℤ) - 1 := by omega
  calc ((⌊a + 1/2⌋ : ℤ) : ℚ) ≤ ((((n : ℕ) : ℤ) - 1 : ℤ) : ℚ) := by exact_mod_cast h3
    _ = (n : ℚ) - 1 := by push_cast; ring

/-! ### Step equations for the gap scan -/

lemma findGapsAux_cons_true (pageH : ℚ) (cfg : DetectionConfig)
    (rest : List Bool) (y : ℕ) (gs : Option ℕ) :
    findGapsAux pageH cfg (true :: rest) y gs =
      findGapsAux pageH cfg rest (y + 1) (some (gs.getD y)) := rfl

lemma findGapsAux_cons_false_none (pageH : ℚ) (cfg : DetectionConfig)
    (rest : List Bool) (y : ℕ) :
    findGapsAux pageH cfg (false :: rest) y none =
      findGapsAux pageH cfg rest (y + 1) none := rfl

lemma findGapsAux_cons_false_some (pageH : ℚ) (cfg : DetectionConfig)
    (rest : List Bool) (y s : ℕ) :
    findGapsAux pageH cfg (false :: rest) y (some s) =
      (if cfg.minGapHeight ≤ (mkGap s y pageH cfg).height ∧
          (cfg.edgeMargin < (mkGap s y pageH cfg).centerY ∧
            (mkGap s y pageH cfg).centerY < pageH - cfg.edgeMargin)
        then [mkGap s y pageH cfg] else []) ++
        findGapsAux pageH cfg rest (y + 1) none := by
  show (if cfg.minGapHeight ≤ (mkGap s y pageH cfg).height then
          if cfg.edgeMargin < (mkGap s y pageH cfg).centerY ∧
              (mkGap s y pageH cfg).centerY < pageH - cfg.edgeMargin then
            mkGap s y pageH cfg :: findGapsAux pageH cfg rest (y + 1) none
          else findGapsAux pageH cfg rest (y + 1) none
        else findGapsAux pageH cfg rest (y + 1) none) = _
  by_cases h1 : cfg.minGapHeight ≤ (mkGap s y pageH cfg).height
  · by_cases h2 : cfg.edgeMargin < (mkGap s y pageH cfg).centerY ∧
        (mkGap s y pageH cfg).centerY < pageH - cfg.edgeMargin
    · rw [if_pos h1, if_pos h2, if_pos ⟨h1, h2⟩]; rfl
    · rw [if_pos h1, if_neg h2, if_neg (by tauto)]; rfl
  · rw [if_neg h1, if_neg (by tauto)]; rfl

/-- `mkGap` field formulas. -/
lemma mkGap_startY (s e : ℕ) (pageH : ℚ) (cfg : DetectionConfig) :
    (mkGap s e pageH cfg).startY = s := rfl

lemma mkGap_endY (s e : ℕ) (pageH : ℚ) (cfg : DetectionConfig) :
    (mkGap s e pageH cfg).endY = e := rfl

lemma mkGap_height (s e : ℕ) (pageH : ℚ) (cfg : DetectionConfig) :
    (mkGap s e pageH cfg).height = (e : ℚ) - (s : ℚ) := rfl

lemma mkGap_centerY (s e : ℕ) (pageH : ℚ) (cfg : DetectionConfig) :
    (mkGap s e pageH cfg).centerY = (s : ℚ) + ((e : ℚ) - (s : ℚ)) / 2 := rfl

lemma mkGap_score (s e : ℕ) (pageH : ℚ) (cfg : DetectionConfig) :
    (mkGap s e pageH cfg).score =
      min (((e : ℚ) - (s : ℚ)) / 50) 1 *
        (1 - |((s : ℚ) + ((e : ℚ) - (s : ℚ)) / 2) / pageH - 1/2| * cfg.centerBias) := rfl

/-! ### Structure of the gap list -/

/-- Every gap produced by the scan loop records a genuine whitespace run:
its bounds lie in the scanned range, it is closed by a non-whitespace row,
its fields satisfy the `mkGap` formulas, and it passed both filters. -/
lemma findGapsAux_sound (pageH : ℚ) (cfg : DetectionConfig) :
    ∀ (rows : List Bool) (y : ℕ) (gs : Option ℕ),
      (∀ s, gs = some s → s < y) →
      ∀ g ∈ findGapsAux pageH cfg rows y gs,
        gs.getD y ≤ g.startY ∧ g.startY < g.endY ∧
        y ≤ g.endY ∧ g.endY < y + rows.length ∧
        rows.getD (g.endY - y) true = false ∧
        g = mkGap g.startY g.endY pageH cfg ∧
        cfg.minGapHeight ≤ g.height ∧
        cfg.edgeMargin < g.centerY ∧ g.centerY < pageH - cfg.edgeMargin := by
  intro rows
  induction rows with
  | nil =>
    intro y gs _ g hg
    simp [findGapsAux] at hg
  | cons w rest ih =>
    intro y gs hgs g hg
    cases w with
    | true =>
      rw [findGapsAux_cons_true] at hg
      have hinv : ∀ s, some (gs.getD y) = some s → s < y + 1 := by
        intro s hs
        injection hs with hs'
        cases gs with
        | none => simp at hs'; omega
        | some s0 =>
          have := hgs s0 rfl
          simp at hs'; omega
      obtain ⟨h1, h2, h3, h4, h5, h6, h7, h8, h9⟩ := ih (y + 1) (some (gs.getD y)) hinv g hg
      simp only [Option.getD_some] at h1
      refine ⟨h1, h2, by omega, by simp; omega, ?_, h6, h7, h8, h9⟩
      have hshift : g.endY - y = (g.endY - (y + 1)) + 1 := by omega
      rw [hshift]
      simpa using h5
    | false =>
      have hnone : ∀ s', (none : Option ℕ) = some s' → s' < y + 1 := by
        intro s' hs'; cases hs'
      have htail : g ∈ findGapsAux pageH cfg rest (y + 1) none →
          y + 1 ≤ g.startY ∧ g.startY < g.endY ∧
          y ≤ g.endY ∧ g.endY < y + (false :: rest).length ∧
          (false :: rest).getD (g.endY - y) true = false ∧
          g = mkGap g.startY g.endY pageH cfg ∧
          cfg.minGapHeight ≤ g.height ∧
          cfg.edgeMargin < g.centerY ∧ g.centerY < pageH - cfg.edgeMargin := by
        intro hg'
        obtain ⟨h1, h2, h3, h4, h5, h6, h7, h8, h9⟩ := ih (y + 1) none hnone g hg'
        simp only [Option.getD_none] at h1
        refine ⟨h1, h2, by omega, by simp; omega, ?_, h6, h7, h8, h9⟩
        have hshift : g.endY - y = (g.endY - (y + 1)) + 1 := by omega
        rw [hshift]
        simpa using h5
      cases gs with
      | none =>
        rw [findGapsAux_cons_false_none] at hg
        obtain ⟨h1, h2, h3, h4, h5, h6, h7, h8, h9⟩ := htail hg
        exact ⟨by simp; omega, h2, h3, h4, h5, h6, h7, h8, h9⟩
      | some s =>
        have hsy : s < y := hgs s rfl
        rw [findGapsAux_cons_false_some] at hg
        rcases List.mem_append.mp hg with hleft | hg'
        · have hcond : cfg.minGapHeight ≤ (mkGap s y pageH cfg).height ∧
              (cfg.edgeMargin < (mkGap s y pageH cfg).centerY ∧
                (mkGap s y pageH cfg).centerY < pageH - cfg.edgeMargin) := by
            by_contra hc
            rw [if_neg hc] at hleft
            simp at hleft
          rw [if_pos hcond] at hleft
          have hgeq : g = mkGap s y pageH cfg := by simpa using hleft
          subst hgeq
          rw [mkGap_startY, mkGap_endY]
          exact ⟨by simp, hsy, le_refl y, by simp, by simp, rfl,
            hcond.1, hcond.2.1, hcond.2.2⟩
        · obtain ⟨h1, h2, h3, h4, h5, h6, h7, h8, h9⟩ := htail hg'
          exact ⟨by simp; omega, h2, h3, h4, h5, h6, h7, h8, h9⟩

/-- Top-level soundness for `findGaps`. -/
lemma findGaps_sound {rows : List Bool} {pageH : ℚ} {cfg : DetectionConfig}
    {g : WhitespaceGap} (hg : g ∈ findGaps rows pageH cfg) :
    g.startY < g.endY ∧ g.endY < rows.length ∧
    rows.getD g.endY true = false ∧
    g = mkGap g.startY g.endY pageH cfg ∧
    cfg.minGapHeight ≤ g.height ∧
    cfg.edgeMargin < g.centerY ∧ g.centerY < pageH - cfg.edgeMargin := by
  obtain ⟨h1, h2, h3, h4, h5, h6, h7, h8, h9⟩ :=
    findGapsAux_sound pageH cfg rows 0 none (by intro s hs; cases hs) g hg
  exact ⟨h2, by omega, by simpa using h5, h6, h7, h8, h9⟩

/-- Bounds of a gap's center in terms of its endpoints. -/
lemma mkGap_center_bounds {g : WhitespaceGap} {pageH : ℚ} {cfg : DetectionConfig}
    (hform : g = mkGap g.startY g.endY pageH cfg) (hlt : g.startY < g.endY) :
    (g.startY : ℚ) + 1/2 ≤ g.centerY ∧ g.centerY ≤ (g.endY : ℚ) - 1/2 := by
  have hse : (g.startY : ℚ) + 1 ≤ (g.endY : ℚ) := by exact_mod_cast hlt
  have hc : g.centerY = (g.startY : ℚ) + ((g.endY : ℚ) - (g.startY : ℚ)) / 2 := by
    have h0 := congrArg WhitespaceGap.centerY hform
    rwa [mkGap_centerY] at h0
  constructor <;> (rw [hc]; linarith)

/-- Gaps are emitted in order, with consecutive centers at least 2 apart. -/
lemma findGapsAux_pairwise (pageH : ℚ) (cfg : DetectionConfig) :
    ∀ (rows : List Bool) (y : ℕ) (gs : Option ℕ),
      (∀ s, gs = some s → s < y) →
      List.Pairwise (fun a b => a.centerY + 2 ≤ b.centerY)
        (findGapsAux pageH cfg rows y gs) := by
  intro rows
  induction rows with
  | nil =>
    intro y gs _
    simp [findGapsAux]
  | cons w rest ih =>
    intro y gs hgs
    cases w with
    | true =>
      rw [findGapsAux_cons_true]
      refine ih (y + 1) (some (gs.getD y)) ?_
      intro s hs
      injection hs with hs'
      cases gs with
      | none => simp at hs'; omega
      | some s0 => have := hgs s0 rfl; simp at hs'; omega
    | false =>
      have hnone : ∀ s', (none : Option ℕ) = some s' → s' < y + 1 := by
        intro s' hs'; cases hs'
      cases gs with
      | none =>
        rw [findGapsAux_cons_false_none]
        exact ih (y + 1) none hnone
      | some s =>
        have hsy : s < y := hgs s rfl
        rw [findGapsAux_cons_false_some]
        split
        · refine List.pairwise_append.mpr ⟨List.pairwise_singleton _ _,
            ih (y + 1) none hnone, ?_⟩
          intro a ha b hb
          have haeq : a = mkGap s y pageH cfg := by simpa using ha
          obtain ⟨h1, h2, _, _, _, h6, _, _, _⟩ :=
            findGapsAux_sound pageH cfg rest (y + 1) none hnone b hb
          simp only [Option.getD_none] at h1
          have hcb := (mkGap_center_bounds h6 h2).1
          have hstart : (y : ℚ) + 1 ≤ (b.startY : ℚ) := by exact_mod_cast h1
          have hme : a.centerY ≤ (y : ℚ) - 1/2 := by
            subst haeq
            have hf : (mkGap s y pageH cfg) = mkGap (mkGap s y pageH cfg).startY
                (mkGap s y pageH cfg).endY pageH cfg := rfl
            have := (mkGap_center_bounds hf (by rw [mkGap_startY, mkGap_endY]; exact hsy)).2
            rwa [mkGap_endY] at this
          linarith
        · simp only [List.nil_append]
          exact ih (y + 1) none hnone

/-- Sorted-ness of the produced gap list (weak order, for the sort). -/
lemma findGaps_sorted (rows : List Bool) (pageH : ℚ) (cfg : DetectionConfig) :
    List.Pairwise (fun a b => a.centerY ≤ b.centerY) (findGaps rows pageH cfg) := by
  refine List.Pairwise.imp ?_
    (findGapsAux_pairwise pageH cfg rows 0 none (by intro s hs; cases hs))
  intro a b h
  linarith

/-! ### The sort is the identity on the already-sorted gap list -/

lemma insertByCenter_of_le {g : WhitespaceGap} {l : List WhitespaceGap}
    (h : ∀ x ∈ l, g.centerY ≤ x.centerY) : insertByCenter g l = g :: l := by
  cases l with
  | nil => rfl
  | cons x t =>
    simp only [insertByCenter]
    rw [if_pos (h x (List.mem_cons_self x t))]

lemma sortGaps_of_sorted : ∀ {l : List WhitespaceGap},
    List.Pairwise (fun a b => a.centerY ≤ b.centerY) l → sortGaps l = l := by
  intro l
  induction l with
  | nil => intro _; rfl
  | cons x t ih =>
    intro h
    obtain ⟨hx, ht⟩ := List.pairwise_cons.mp h
    simp only [sortGaps]
    rw [ih ht, insertByCenter_of_le hx]

/-- On any gap list as produced by `findGaps`, the sort is the identity. -/
lemma sortGaps_findGaps (rows : List Bool) (pageH : ℚ) (cfg : DetectionConfig) :
    sortGaps (findGaps rows pageH cfg) = findGaps rows pageH cfg :=
  sortGaps_of_sorted (findGaps_sorted rows pageH cfg)

/-! ### The selection loop preserves validity -/

lemma selectLoop_cons (T : ℚ) (gap : WhitespaceGap) (rest : List WhitespaceGap)
    (cuts : List ℚ) (lastCut : ℚ) :
    selectLoop T (gap :: rest) cuts lastCut =
      if T * (1/2) ≤ gap.centerY - lastCut then
        selectLoop T rest (cuts ++ [jsRound gap.centerY]) gap.centerY
      else if T * 1 ≤ gap.centerY - lastCut ∧ (2/10 : ℚ) < gap.score then
        selectLoop T rest (cuts ++ [jsRound gap.centerY]) gap.centerY
      else selectLoop T rest cuts lastCut := rfl

lemma head?_append_of_ne_nil {l l' : List ℚ} (h : l ≠ []) :
    (l ++ l').head? = l.head? := by
  cases l with
  | nil => exact absurd rfl h
  | cons a t => rfl

/-- Invariant carried by the selection loop: the accumulated cut list stays
nonempty, strictly increasing, bounded by `n - 1`, keeps its head, ends at
the rounded `lastCut`, and grows only by accepting gaps. -/
def selectInv (n : ℕ) (cuts0 : List ℚ) (lastCut0 : ℚ) (r : List ℚ × ℚ) : Prop :=
  r.1 ≠ [] ∧ r.1.Chain' (· < ·) ∧ r.1.getLast? = some (jsRound r.2) ∧
  (∀ x ∈ r.1, x ≤ (n : ℚ) - 1) ∧ r.1.head? = cuts0.head? ∧
  (r.1 = cuts0 ∧ r.2 = lastCut0 ∨ 2 ≤ r.1.length)

lemma selectLoop_invariant (T : ℚ) (n : ℕ) :
    ∀ (gaps : List WhitespaceGap) (cuts : List ℚ) (lastCut : ℚ),
      cuts ≠ [] →
      cuts.Chain' (· < ·) →
      cuts.getLast? = some (jsRound lastCut) →
      (∀ x ∈ cuts, x ≤ (n : ℚ) - 1) →
      List.Pairwise (fun a b => a.centerY + 2 ≤ b.centerY) gaps →
      (∀ g ∈ gaps, 1/2 ≤ g.centerY ∧ g.centerY ≤ (n : ℚ) - 3/2) →
      (∀ g ∈ gaps, jsRound lastCut < jsRound g.centerY) →
      selectInv n cuts lastCut (selectLoop T gaps cuts lastCut) := by
  intro gaps
  induction gaps with
  | nil =>
    intro cuts lastCut h1 h2 h3 h4 _ _ _
    exact ⟨h1, h2, h3, h4, rfl, Or.inl ⟨rfl, rfl⟩⟩
  | cons gap rest ih =>
    intro cuts lastCut h1 h2 h3 h4 h5 h6 h7
    obtain ⟨hsep, hrest⟩ := List.pairwise_cons.mp h5
    have hgap := h6 gap (List.mem_cons_self gap rest)
    have haccept : selectInv n (cuts ++ [jsRound gap.centerY]) gap.centerY
        (selectLoop T rest (cuts ++ [jsRound gap.centerY]) gap.centerY) := by
      refine ih (cuts ++ [jsRound gap.centerY]) gap.centerY ?_ ?_ ?_ ?_ hrest ?_ ?_
      · simp
      · refine List.chain'_append.mpr ⟨h2, List.chain'_singleton _, ?_⟩
        intro x hx z hz
        rw [h3] at hx
        simp at hx hz
        subst hx; subst hz
        exact h7 gap (List.mem_cons_self gap rest)
      · exact List.getLast?_concat _
      · intro x hx
        rcases List.mem_append.mp hx with hx' | hx'
        · exact h4 x hx'
        · have hxe : x = jsRound gap.centerY := by simpa using hx'
          subst hxe
          exact jsRound_le_natCast_sub_one hgap.2
      · intro g hg
        exact h6 g (List.mem_cons_of_mem gap hg)
      · intro g hg
        have hs := hsep g hg
        have := jsRound_add_two_le hs
        linarith
    have hstep : ∀ r, selectInv n (cuts ++ [jsRound gap.centerY]) gap.centerY r →
        selectInv n cuts lastCut r := by
      intro r hr
      obtain ⟨k1, k2, k3, k4, k5, k6⟩ := hr
      refine ⟨k1, k2, k3, k4, ?_, ?_⟩
      · rw [k5, head?_append_of_ne_nil h1]
      · right
        rcases k6 with ⟨keq, _⟩ | klen
        · rw [keq]
          have h1' : 1 ≤ cuts.length := List.length_pos.mpr h1
          simp only [List.length_append, List.length_singleton]
          omega
        · exact klen
    rw [selectLoop_cons]
    by_cases hc1 : T * (1/2) ≤ gap.centerY - lastCut
    · rw [if_pos hc1]
      exact hstep _ haccept
    · rw [if_neg hc1]
      by_cases hc2 : T * 1 ≤ gap.centerY - lastCut ∧ (2/10 : ℚ) < gap.score
      · rw [if_pos hc2]
        exact hstep _ haccept
      · rw [if_neg hc2]
        exact ih cuts lastCut h1 h2 h3 h4 hrest
          (fun g hg => h6 g (List.mem_cons_of_mem gap hg))
          (fun g hg => h7 g (List.mem_cons_of_mem gap hg))

/-! ### Closing the cut sequence at the page end -/

lemma mem_of_getLast?_eq {l : List ℚ} {x : ℚ} (h : l.getLast? = some x) : x ∈ l := by
  obtain ⟨hne, hxeq⟩ := List.mem_getLast?_eq_getLast (show x ∈ l.getLast? from h)
  subst hxeq
  exact List.getLast_mem hne

lemma cuts_append_valid {cuts : List ℚ} {n : ℕ} (hne : cuts ≠ [])
    (hchain : cuts.Chain' (· < ·)) (hbound : ∀ x ∈ cuts, x ≤ (n : ℚ) - 1)
    (hhead : cuts.head? = some 0) :
    specCutsValid n (cuts ++ [(n : ℚ)]) := by
  refine ⟨?_, ?_, ?_, ?_⟩
  · have h1 : 1 ≤ cuts.length := List.length_pos.mpr hne
    simp only [List.length_append, List.length_singleton]
    omega
  · refine List.chain'_append.mpr ⟨hchain, List.chain'_singleton _, ?_⟩
    intro x hx z hz
    simp only [List.head?_cons, Option.mem_some_iff] at hz
    subst hz
    have hxm : x ∈ cuts := mem_of_getLast?_eq hx
    have := hbound x hxm
    linarith
  · rw [head?_append_of_ne_nil hne, hhead]
  · exact List.getLast?_concat _

lemma cuts_overwrite_valid {cuts : List ℚ} {n : ℕ} (hne : cuts ≠ [])
    (hchain : cuts.Chain' (· < ·)) (hbound : ∀ x ∈ cuts, x ≤ (n : ℚ) - 1)
    (hhead : cuts.head? = some 0) (hlen : 2 ≤ cuts.length) :
    specCutsValid n (cuts.dropLast ++ [(n : ℚ)]) := by
  have hdne : cuts.dropLast ≠ [] := by
    have : cuts.dropLast.length = cuts.length - 1 := List.length_dropLast cuts
    intro hcontra
    rw [hcontra] at this
    simp at this
    omega
  have hsub : ∀ x ∈ cuts.dropLast, x ∈ cuts := fun x hx => List.dropLast_subset cuts hx
  refine ⟨?_, ?_, ?_, ?_⟩
  · have : cuts.dropLast.length = cuts.length - 1 := List.length_dropLast cuts
    simp only [List.length_append, List.length_singleton]
    omega
  · have hgl : cuts.getLast? = some (cuts.getLast hne) := List.getLast?_eq_getLast_of_ne_nil hne
    have hsplit : cuts.dropLast ++ [cuts.getLast hne] = cuts :=
      List.dropLast_append_getLast? _ hgl
    have hchain2 : (cuts.dropLast ++ [cuts.getLast hne]).Chain' (· < ·) := by
      rw [hsplit]; exact hchain
    obtain ⟨hcd, _, _⟩ := List.chain'_append.mp hchain2
    refine List.chain'_append.mpr ⟨hcd, List.chain'_singleton _, ?_⟩
    intro x hx z hz
    simp only [List.head?_cons, Option.mem_some_iff] at hz
    subst hz
    have hxm : x ∈ cuts := hsub x (mem_of_getLast?_eq hx)
    have := hbound x hxm
    linarith
  · rw [head?_append_of_ne_nil hdne]
    cases cuts with
    | nil => exact absurd rfl hne
    | cons a t =>
      cases t with
      | nil => simp at hlen
      | cons b t' => simpa using hhead
  · exact List.getLast?_concat _

/-! ### The even-cut fallback loop -/

lemma evenCutsAux_zero (height T : ℚ) (current : ℚ) :
    evenCutsAux height T 0 current =
      if current < height - T * (3/10) then none else some [] := by
  simp only [evenCutsAux]

lemma evenCutsAux_succ (height T : ℚ) (f : ℕ) (current : ℚ) :
    evenCutsAux height T (f + 1) current =
      if current < height - T * (3/10) then
        (evenCutsAux height T f (current + T)).map (fun cuts => jsRound current :: cuts)
      else some [] := by
  simp only [evenCutsAux]

/-- For a non-positive step the loop body never brings the cursor closer to
the bound: the loop of `generateEvenCuts` diverges (no fuel suffices). -/
lemma evenCutsAux_none_of_nonpos {height T : ℚ} (hT : T ≤ 0) :
    ∀ (fuel : ℕ) (current : ℚ), current < height - T * (3/10) →
      evenCutsAux height T fuel current = none := by
  intro fuel
  induction fuel with
  | zero =>
    intro current h
    rw [evenCutsAux_zero, if_pos h]
  | succ f ihf =>
    intro current h
    rw [evenCutsAux_succ, if_pos h]
    have h2 : current + T < height - T * (3/10) := by linarith
    rw [ihf (current + T) h2]
    rfl

lemma midsRemaining_pos_iff {height T : ℚ} (hT : 0 < T) (j : ℕ) :
    (((j + 1 : ℕ) : ℚ) * T < height - T * (3/10)) ↔
      1 ≤ midsRemaining height T j := by
  unfold midsRemaining
  constructor
  · intro h
    have hq : ((j : ℚ) + 1) < (height - T * (3/10)) / T := by
      rw [lt_div_iff hT]
      push_cast at h
      linarith
    have hz : ((j : ℤ) + 1) < ⌈(height - T * (3/10)) / T⌉ := by
      rw [Int.lt_ceil]
      push_cast
      exact hq
    omega
  · intro h
    have hz : ((j : ℤ) + 1) < ⌈(height - T * (3/10)) / T⌉ := by omega
    have hq : ((j : ℚ) + 1) < (height - T * (3/10)) / T := by
      have := Int.lt_ceil.mp hz
      push_cast at this
      exact this
    rw [lt_div_iff hT] at hq
    push_cast
    linarith

lemma midsRemaining_succ {height T : ℚ} (j : ℕ)
    (h : 1 ≤ midsRemaining height T j) :
    midsRemaining height T (j + 1) = midsRemaining height T j - 1 := by
  unfold midsRemaining at *
  omega

/-- Closed form of the fallback loop: starting the cursor at `(j+1)·T` with
enough fuel, the loop emits the rounded multiples of `T` while they stay
below `H - 0.3·T`. -/
lemma evenCutsAux_closedForm {height T : ℚ} (hT : 0 < T) :
    ∀ (fuel : ℕ) (j : ℕ), midsRemaining height T j ≤ fuel →
      evenCutsAux height T fuel (((j + 1 : ℕ) : ℚ) * T) =
        some ((List.range (midsRemaining height T j)).map
          (fun k => jsRound (((j + 1 + k : ℕ) : ℚ) * T))) := by
  intro fuel
  induction fuel with
  | zero =>
    intro j hj
    have hz : midsRemaining height T j = 0 := by omega
    rw [evenCutsAux_zero, if_neg ?_, hz]
    · simp
    · intro hcond
      have := (midsRemaining_pos_iff hT j).mp hcond
      omega
  | succ f ihf =>
    intro j hj
    by_cases hcond : ((j + 1 : ℕ) : ℚ) * T < height - T * (3/10)
    · have hpos := (midsRemaining_pos_iff hT j).mp hcond
      rw [evenCutsAux_succ, if_pos hcond]
      have hcur : ((j + 1 : ℕ) : ℚ) * T + T = ((j + 1 + 1 : ℕ) : ℚ) * T := by
        push_cast
        ring
      rw [hcur]
      have hrec := ihf (j + 1) (by rw [midsRemaining_succ j hpos]; omega)
      rw [hrec, midsRemaining_succ j hpos]
      have hsucc : midsRemaining height T j = (midsRemaining height T j - 1) + 1 := by
        omega
      rw [hsucc, List.range_succ_eq_map]
      have harg : ∀ k : ℕ, (((j + 1 + 1 + k : ℕ) : ℚ) * T) = (((j + 1 + (k + 1) : ℕ) : ℚ) * T) := by
        intro k; push_cast; ring
      have h0 : (((j + 1 + 0 : ℕ) : ℚ) * T) = (((j + 1 : ℕ) : ℚ) * T) := by
        push_cast; ring
      simp only [Option.map_some', List.map_cons, List.map_map, Function.comp_def,
        Nat.succ_eq_add_one, harg, h0]
      rw [Nat.add_sub_cancel]
    · have hz : midsRemaining height T j = 0 := by
        by_contra hnz
        exact hcond ((midsRemaining_pos_iff hT j).mpr (by omega))
      rw [evenCutsAux_succ, if_neg hcond, hz]
      simp

/-- For a positive target height the fallback terminates and produces the
spec's even-cut sequence. -/
lemma generateEvenCuts_eq_spec {height T : ℚ} (hT : 0 < T) :
    generateEvenCuts height T = some (specEvenCuts height T) := by
  have hfuel : midsRemaining height T 0 ≤ evenCutsFuel height T := by
    unfold midsRemaining evenCutsFuel
    rw [if_pos hT]
    have hle : (height - T * (3/10)) / T ≤ height / T := by
      rw [div_le_div_iff hT hT]
      nlinarith
    have := Int.ceil_mono hle
    omega
  have h := evenCutsAux_closedForm hT (evenCutsFuel height T) 0 hfuel
  rw [show (((0 + 1 : ℕ) : ℚ) * T) = T by push_cast; ring] at h
  have harg : ∀ k : ℕ, (((0 + 1 + k : ℕ) : ℚ) * T) = (((k + 1 : ℕ) : ℚ) * T) := by
    intro k; push_cast; ring
  unfold generateEvenCuts specEvenCuts
  rw [h]
  simp only [Option.map_some', harg]

/-- Validity of the spec even-cut sequence when the target height is at
least `5/3` (so rounding cannot collapse consecutive cuts) and `0.3·T < H`. -/
lemma specEvenCuts_valid {T : ℚ} {n : ℕ} (hT : 5/3 ≤ T)
    (hTn : T * (3/10) < (n : ℚ)) (hn : 1 ≤ n) :
    specCutsValid n (specEvenCuts (n : ℚ) T) := by
  have hT0 : 0 < T := by linarith
  set M := midsRemaining (n : ℚ) T 0 with hM
  have hmem : ∀ x ∈ (List.range M).map
      (fun k => jsRound (((k + 1 : ℕ) : ℚ) * T)), 1 ≤ x ∧ x < (n : ℚ) := by
    intro x hx
    obtain ⟨k, hk, hxe⟩ := List.mem_map.mp hx
    have hkM : k < M := List.mem_range.mp hk
    subst hxe
    constructor
    · refine one_le_jsRound ?_
      have : (1 : ℚ) ≤ ((k + 1 : ℕ) : ℚ) := by push_cast; linarith [Nat.cast_nonneg (α := ℚ) k]
      nlinarith
    · have hcond : ((k + 1 : ℕ) : ℚ) * T < (n : ℚ) - T * (3/10) := by
        have h1 : 1 ≤ midsRemaining (n : ℚ) T k := by
          unfold midsRemaining at hM ⊢
          omega
        exact (midsRemaining_pos_iff hT0 k).mpr h1
      refine jsRound_lt_natCast ?_
      linarith
  have hchain : ((List.range M).map
      (fun k => jsRound (((k + 1 : ℕ) : ℚ) * T))).Pairwise (· < ·) := by
    refine List.Pairwise.map _ ?_ (List.pairwise_lt_range M)
    intro a b hab
    have hmul : ((a + 1 : ℕ) : ℚ) * T + 1 ≤ ((b + 1 : ℕ) : ℚ) * T := by
      have hba : (a : ℚ) + 1 ≤ (b : ℚ) := by exact_mod_cast hab
      have : ((a + 1 : ℕ) : ℚ) * T + T ≤ ((b + 1 : ℕ) : ℚ) * T := by
        push_cast
        nlinarith
      linarith
    have := jsRound_add_one_le hmul
    linarith
  refine ⟨?_, ?_, ?_, ?_⟩
  · unfold specEvenCuts
    simp only [List.length_cons, List.length_append, List.length_singleton]
    omega
  · unfold specEvenCuts
    refine List.Pairwise.chain' ?_
    refine List.pairwise_cons.mpr ⟨?_, ?_⟩
    · intro x hx
      rcases List.mem_append.mp hx with hx' | hx'
      · exact lt_of_lt_of_le (by norm_num) (hmem x hx').1
      · have hxe : x = (n : ℚ) := by simpa using hx'
        subst hxe
        exact_mod_cast hn
    · refine List.pairwise_append.mpr ⟨hchain, List.pairwise_singleton _ _, ?_⟩
      intro x hx z hz
      have hze : z = (n : ℚ) := by simpa using hz
      subst hze
      exact (hmem x hx).2
  · rfl
  · unfold specEvenCuts
    rw [show (0 : ℚ) :: ((List.range M).map
        (fun k => jsRound (((k + 1 : ℕ) : ℚ) * T))) ++ [(n : ℚ)] =
      ((0 : ℚ) :: (List.range M).map
        (fun k => jsRound (((k + 1 : ℕ) : ℚ) * T))) ++ [(n : ℚ)] from rfl]
    exact List.getLast?_concat _

/-! ### Assembling `findCutPoints` -/

lemma evenCutsAux_stop {height T current : ℚ} (fuel : ℕ)
    (h : ¬ current < height - T * (3/10)) :
    evenCutsAux height T fuel current = some [] := by
  cases fuel with
  | zero => rw [evenCutsAux_zero, if_neg h]
  | succ f => rw [evenCutsAux_succ, if_neg h]

lemma detectWhitespaceRows_length (img : ImageData) (cfg : DetectionConfig) :
    (detectWhitespaceRows img cfg).length = img.height := by
  simp [detectWhitespaceRows]

lemma findCutPoints_of_no_gaps {img : ImageData} {T : ℚ} {ov : PartialDetectionConfig}
    (h : findGaps (detectWhitespaceRows img (mergeConfig ov))
      ((img.height : ℕ) : ℚ) (mergeConfig ov) = []) :
    findCutPoints img T ov = generateEvenCuts ((img.height : ℕ) : ℚ) T := by
  simp only [findCutPoints]
  rw [h]
  rfl

lemma findGaps_center_window {rows : List Bool} {cfg : DetectionConfig} {n : ℕ}
    (hlen : rows.length = n) :
    ∀ g ∈ findGaps rows (n : ℚ) cfg,
      1/2 ≤ g.centerY ∧ g.centerY ≤ (n : ℚ) - 3/2 := by
  intro g hg
  obtain ⟨h1, h2, _, h4, _, _, _⟩ := findGaps_sound hg
  have hb := mkGap_center_bounds h4 h1
  constructor
  · have h0 : (0 : ℚ) ≤ (g.startY : ℚ) := Nat.cast_nonneg _
    linarith [hb.1]
  · have hcast : (g.endY : ℚ) + 1 ≤ (n : ℚ) := by
      exact_mod_cast (by omega : g.endY + 1 ≤ n)
    linarith [hb.2]

/-- Validity of the cut sequence produced by `findCutPoints` when the page is
nonempty, the target is at least `5/3`, and `0.3·T < H`. -/
lemma findCutPoints_valid (img : ImageData) (ov : PartialDetectionConfig) (T : ℚ)
    (hn : 1 ≤ img.height) (hT : 5/3 ≤ T) (hTn : T * (3/10) < (img.height : ℚ)) :
    specCutsOk img.height (findCutPoints img T ov) := by
  have hT0 : 0 < T := by linarith
  by_cases hempty : findGaps (detectWhitespaceRows img (mergeConfig ov))
      ((img.height : ℕ) : ℚ) (mergeConfig ov) = []
  · rw [findCutPoints_of_no_gaps hempty, generateEvenCuts_eq_spec hT0]
    exact specEvenCuts_valid hT hTn hn
  · have hrowlen : (detectWhitespaceRows img (mergeConfig ov)).length = img.height :=
      detectWhitespaceRows_length img (mergeConfig ov)
    have hcenters := @findGaps_center_window _ (mergeConfig ov) _ hrowlen
    have hpair := findGapsAux_pairwise ((img.height : ℕ) : ℚ) (mergeConfig ov)
      (detectWhitespaceRows img (mergeConfig ov)) 0 none (by intro s hs; cases hs)
    have hone : (1 : ℚ) ≤ ((img.height : ℕ) : ℚ) := by exact_mod_cast hn
    have hinv := selectLoop_invariant T img.height
      (findGaps (detectWhitespaceRows img (mergeConfig ov))
        ((img.height : ℕ) : ℚ) (mergeConfig ov)) [0] 0
      (by simp)
      (List.chain'_singleton _)
      (by simp [jsRound_zero])
      (by
        intro x hx
        have hxe : x = 0 := by simpa using hx
        subst hxe
        linarith)
      hpair hcenters
      (by
        intro g hg
        rw [jsRound_zero]
        have := one_le_jsRound (hcenters g hg).1
        linarith)
    obtain ⟨k1, k2, k3, k4, k5, k6⟩ := hinv
    simp only [findCutPoints]
    rw [if_neg (by simpa using hempty), sortGaps_findGaps]
    by_cases hfin : ((img.height : ℕ) : ℚ) -
        (selectLoop T (findGaps (detectWhitespaceRows img (mergeConfig ov))
          ((img.height : ℕ) : ℚ) (mergeConfig ov)) [0] 0).2 > T * (3/10)
    · rw [if_pos hfin]
      exact cuts_append_valid k1 k2 k4 (by rw [k5]; rfl)
    · rw [if_neg hfin]
      have hlen2 : 2 ≤ (selectLoop T (findGaps (detectWhitespaceRows img (mergeConfig ov))
          ((img.height : ℕ) : ℚ) (mergeConfig ov)) [0] 0).1.length := by
        rcases k6 with ⟨_, hlc⟩ | h2len
        · exfalso
          rw [hlc] at hfin
          apply hfin
          linarith
        · exact h2len
      exact cuts_overwrite_valid k1 k2 k4 (by rw [k5]; rfl) hlen2

/-! ### Constant row classifications produce no gaps -/

lemma findGapsAux_replicate_true (pageH : ℚ) (cfg : DetectionConfig) :
    ∀ (n y : ℕ) (gs : Option ℕ),
      findGapsAux pageH cfg (List.replicate n true) y gs = [] := by
  intro n
  induction n with
  | zero => intro y gs; rfl
  | succ m ih =>
    intro y gs
    rw [List.replicate_succ, findGapsAux_cons_true]
    exact ih (y + 1) _

lemma findGapsAux_replicate_false (pageH : ℚ) (cfg : DetectionConfig) :
    ∀ (n y : ℕ), findGapsAux pageH cfg (List.replicate n false) y none = [] := by
  intro n
  induction n with
  | zero => intro y; rfl
  | succ m ih =>
    intro y
    rw [List.replicate_succ, findGapsAux_cons_false_none]
    exact ih (y + 1)

lemma findGaps_replicate (n : ℕ) (b : Bool) (pageH : ℚ) (cfg : DetectionConfig) :
    findGaps (List.replicate n b) pageH cfg = [] := by
  cases b
  · exact findGapsAux_replicate_false pageH cfg n 0
  · exact findGapsAux_replicate_true pageH cfg n 0 none

/-- A row whose pixels are all black has brightness ratio 0. -/
lemma analyzeRow_dark {img : ImageData} {y : ℕ}
    (h : ∀ x, x < img.width →
      img.data (y * img.width * 4 + x * 4) = 0 ∧
      img.data (y * img.width * 4 + x * 4 + 1) = 0 ∧
      img.data (y * img.width * 4 + x * 4 + 2) = 0) :
    analyzeRow img y = 0 := by
  simp only [analyzeRow]
  rw [List.countP_eq_zero.mpr ?_]
  · simp
  · intro x hx
    have hx' := List.mem_range.mp hx
    obtain ⟨hr, hg, hb⟩ := h x hx'
    simp only [hr, hg, hb]
    norm_num

/-- A row whose pixels are all pure white has brightness ratio `W / W`. -/
lemma analyzeRow_white {img : ImageData} {y : ℕ}
    (h : ∀ x, x < img.width →
      img.data (y * img.width * 4 + x * 4) = 255 ∧
      img.data (y * img.width * 4 + x * 4 + 1) = 255 ∧
      img.data (y * img.width * 4 + x * 4 + 2) = 255) :
    analyzeRow img y = (img.width : ℚ) / (img.width : ℚ) := by
  simp only [analyzeRow]
  rw [List.countP_eq_length.mpr ?_]
  · simp
  · intro x hx
    have hx' := List.mem_range.mp hx
    obtain ⟨hr, hg, hb⟩ := h x hx'
    simp only [hr, hg, hb]
    norm_num

/-- Rows with a constant brightness ratio classify uniformly. -/
lemma detectWhitespaceRows_eq_replicate {img : ImageData} {cfg : DetectionConfig} {v : ℚ}
    (h : ∀ y, y < img.height → analyzeRow img y = v) :
    detectWhitespaceRows img cfg =
      List.replicate img.height (decide (cfg.whitespaceThreshold ≤ v)) := by
  unfold detectWhitespaceRows
  refine List.eq_replicate.mpr ⟨by simp, ?_⟩
  intro b hb
  obtain ⟨y, hy, hbe⟩ := List.mem_map.mp hb
  rw [← hbe, h y (List.mem_range.mp hy)]

/-! ### Score bounds -/

/-- A gap that passed the margin filter has score in `(0, 1]` whenever the
center bias does not exceed 2. -/
lemma gap_score_bounds {g : WhitespaceGap} {pageH : ℚ} {cfg : DetectionConfig}
    (hform : g = mkGap g.startY g.endY pageH cfg) (hlt : g.startY < g.endY)
    (hm1 : cfg.edgeMargin < g.centerY) (hm2 : g.centerY < pageH - cfg.edgeMargin)
    (hmargin : 0 ≤ cfg.edgeMargin) (hbias0 : 0 ≤ cfg.centerBias)
    (hbias2 : cfg.centerBias ≤ 2) :
    0 < g.score ∧ g.score ≤ 1 := by
  have hc0 : 0 < g.centerY := lt_of_le_of_lt hmargin hm1
  have hcH : g.centerY < pageH := by linarith
  have hH : 0 < pageH := lt_trans hc0 hcH
  have hh : g.height = (g.endY : ℚ) - (g.startY : ℚ) := by
    have := congrArg WhitespaceGap.height hform
    rwa [mkGap_height] at this
  have hheight : (1 : ℚ) ≤ g.height := by
    rw [hh]
    have : (g.startY : ℚ) + 1 ≤ (g.endY : ℚ) := by exact_mod_cast hlt
    linarith
  have hcenter : g.centerY = (g.startY : ℚ) + ((g.endY : ℚ) - (g.startY : ℚ)) / 2 := by
    have := congrArg WhitespaceGap.centerY hform
    rwa [mkGap_centerY] at this
  have hscore : g.score =
      min (g.height / 50) 1 * (1 - |g.centerY / pageH - 1/2| * cfg.centerBias) := by
    have := congrArg WhitespaceGap.score hform
    rw [mkGap_score] at this
    rw [this, ← hcenter, ← hh]
  have hsize0 : 0 < min (g.height / 50) 1 := lt_min (by linarith) one_pos
  have hsize1 : min (g.height / 50) 1 ≤ 1 := min_le_right _ _
  have hn0 : 0 < g.centerY / pageH := div_pos hc0 hH
  have hn1 : g.centerY / pageH < 1 := (div_lt_one hH).mpr hcH
  have habs : |g.centerY / pageH - 1/2| < 1/2 :=
    abs_lt.mpr ⟨by linarith, by linarith⟩
  have habs0 : 0 ≤ |g.centerY / pageH - 1/2| := abs_nonneg _
  have hcs0 : 0 < 1 - |g.centerY / pageH - 1/2| * cfg.centerBias := by nlinarith
  have hcs1 : 1 - |g.centerY / pageH - 1/2| * cfg.centerBias ≤ 1 := by nlinarith
  rw [hscore]
  constructor
  · exact mul_pos hsize0 hcs0
  · nlinarith

/-! ### Splitting the gap scan across an append -/

lemma scanState_cons_true (rest : List Bool) (y : ℕ) (gs : Option ℕ) :
    scanState (true :: rest) y gs = scanState rest (y + 1) (some (gs.getD y)) := rfl

lemma scanState_cons_false (rest : List Bool) (y : ℕ) (gs : Option ℕ) :
    scanState (false :: rest) y gs = scanState rest (y + 1) none := rfl

lemma findGapsAux_append (pageH : ℚ) (cfg : DetectionConfig) :
    ∀ (l1 l2 : List Bool) (y : ℕ) (gs : Option ℕ),
      findGapsAux pageH cfg (l1 ++ l2) y gs =
        findGapsAux pageH cfg l1 y gs ++
          findGapsAux pageH cfg l2 (y + l1.length) (scanState l1 y gs) := by
  intro l1
  induction l1 with
  | nil =>
    intro l2 y gs
    simp [findGapsAux, scanState]
  | cons w rest ih =>
    intro l2 y gs
    have hlen : y + (w :: rest).length = (y + 1) + rest.length := by
      simp; omega
    cases w with
    | true =>
      rw [List.cons_append, findGapsAux_cons_true, ih, findGapsAux_cons_true,
        scanState_cons_true, hlen]
    | false =>
      cases gs with
      | none =>
        rw [List.cons_append, findGapsAux_cons_false_none, ih,
          findGapsAux_cons_false_none, scanState_cons_false, hlen]
      | some s =>
        rw [List.cons_append, findGapsAux_cons_false_some, ih,
          findGapsAux_cons_false_some, scanState_cons_false, hlen,
          List.append_assoc]

lemma scanState_ends_false :
    ∀ (l : List Bool) (y : ℕ) (gs : Option ℕ),
      l.getLast? = some false → scanState l y gs = none := by
  intro l
  induction l with
  | nil =>
    intro y gs h
    simp at h
  | cons w rest ih =>
    intro y gs h
    cases rest with
    | nil =>
      have hw : w = false := by simpa using h
      subst hw
      rw [scanState_cons_false]
      rfl
    | cons w2 rest2 =>
      have h2 : (w2 :: rest2).getLast? = some false := by
        rwa [List.getLast?_cons_cons] at h
      cases w with
      | true => rw [scanState_cons_true]; exact ih (y + 1) _ h2
      | false => rw [scanState_cons_false]; exact ih (y + 1) none h2

lemma scanState_replicate_true_some :
    ∀ (k y s : ℕ), scanState (List.replicate k true) y (some s) = some s := by
  intro k
  induction k with
  | zero => intro y s; rfl
  | succ m ih =>
    intro y s
    rw [List.replicate_succ, scanState_cons_true]
    exact ih (y + 1) s

lemma scanState_replicate_true_none {k : ℕ} (hk : 1 ≤ k) (y : ℕ) :
    scanState (List.replicate k true) y none = some y := by
  cases k with
  | zero => omega
  | succ m =>
    rw [List.replicate_succ, scanState_cons_true]
    exact scanState_replicate_true_some m (y + 1) y

/-! ### Claim theorems -/

/-- Additional witness configuration: default threshold/minimum gap height,
zero edge margin, default center bias. -/
lemma smallMarginCfg_spec : (⟨95/100, 15, 0, 2/10⟩ : DetectionConfig).edgeMargin = 0 := rfl

/-- C1 (amended): for every pixel buffer of height `H ≥ 1`, any configuration
overrides, and every target slice height `T` with `T ≥ 5/3` and `0.3·T < H`,
`findCutPoints` terminates and returns a cut sequence with at least two
elements, strictly increasing, starting at 0 and ending at `H`.  (As stated
the claim is false: with `0.3·T ≥ H` and a detected but unaccepted gap the
code returns the single-element `[H]`, and fractional `T < 5/3` can make the
even fallback emit duplicate cut values.) -/
theorem selectCutPoints_monotone_valid (img : ImageData) (ov : PartialDetectionConfig)
    (T : ℚ) (hn : 1 ≤ img.height) (hT : 5/3 ≤ T)
    (hTn : T * (3/10) < (img.height : ℚ)) :
    specCutsOk img.height (findCutPoints img T ov) :=
  findCutPoints_valid img ov T hn hT hTn

/-- C1 witness: a concrete 10px dark page with `T = 2`. -/
theorem selectCutPoints_monotone_valid_witness :
    specCutsOk 10 (findCutPoints (darkImg 10) 2 noOverrides) :=
  selectCutPoints_monotone_valid (darkImg 10) noOverrides 2 (by with_unfolding_all decide) (by norm_num)
    (by with_unfolding_all decide)

/-- C1 counterexample: a 200px page with one 40px white band centered at 100
and `T = 700 > 0` yields the single-element, invalid cut list `[200]`. -/
theorem selectCutPoints_monotone_cex :
    findCutPoints bandImg80 700 noOverrides = some [(200 : ℚ)] ∧
    ¬ specCutsValid 200 [(200 : ℚ)] := by
  constructor
  · with_unfolding_all decide
  · with_unfolding_all decide

/-- C2 (code bug): for the degenerate target `T = 0` on a 1px-tall dark page
the `while` loop of `generateEvenCuts` never terminates (the cursor never
advances): the fuelled model returns `none` at the failing input, and no
amount of fuel produces a result. -/
theorem selectCutPoints_degenerate_diverges :
    findCutPoints (darkImg 1) 0 noOverrides = none ∧
    ∀ fuel : ℕ, evenCutsAux 1 0 fuel 0 = none := by
  constructor
  · with_unfolding_all decide
  · intro fuel
    exact evenCutsAux_none_of_nonpos le_rfl fuel 0 (by norm_num)

/-- C3 (amended): when `T` exceeds `H` and the detector finds no gaps, the
cuts are exactly `[0, H]`.  (As stated the claim is false: a page containing
an acceptable gap can yield interior cuts even though `T > H`.) -/
theorem selectCutPoints_target_exceeds_height (img : ImageData)
    (ov : PartialDetectionConfig) (T : ℚ) (hH : 0 < img.height)
    (hT : (img.height : ℚ) < T)
    (hgaps : detectGaps img (mergeConfig ov) = []) :
    findCutPoints img T ov = some [0, (img.height : ℚ)] := by
  have hgaps' : findGaps (detectWhitespaceRows img (mergeConfig ov))
      ((img.height : ℕ) : ℚ) (mergeConfig ov) = [] := hgaps
  rw [findCutPoints_of_no_gaps hgaps']
  unfold generateEvenCuts
  have h1 : (1 : ℚ) ≤ (img.height : ℚ) := by exact_mod_cast hH
  have hT0 : 0 < T := by linarith
  have hstop : ¬ (T < (img.height : ℚ) - T * (3/10)) := by
    intro hc
    linarith
  rw [evenCutsAux_stop _ hstop]
  rfl

/-- C3 witness: a 5px dark page with `T = 6`. -/
theorem selectCutPoints_target_exceeds_height_witness :
    findCutPoints (darkImg 5) 6 noOverrides = some [0, ((5 : ℕ) : ℚ)] :=
  selectCutPoints_target_exceeds_height (darkImg 5) noOverrides 6 (by with_unfolding_all decide)
    (by with_unfolding_all decide) (by with_unfolding_all decide)

/-- C3 counterexample: a 200px page with a 40px white band centered at 120
and `T = 201 > H = 200` yields `[0, 120, 200]`, not `[0, 200]`. -/
theorem selectCutPoints_target_exceeds_height_cex :
    findCutPoints bandImg100 201 noOverrides = some [(0 : ℚ), 120, 200] ∧
    [(0 : ℚ), 120, 200] ≠ [(0 : ℚ), 200] := by
  constructor
  · with_unfolding_all decide
  · with_unfolding_all decide

/-- C4: for `T > 0` the secondary force-accept branch of the selection loop
(`distance ≥ 1.0·T` and `score > 0.2`) is never executed: whenever its
distance condition holds, the looser primary `0.5·T` branch has already
accepted the gap. -/
theorem secondary_branch_unreachable (T : ℚ) (hT : 0 < T) :
    ∀ (gaps : List WhitespaceGap) (lastCut : ℚ),
      selectLoopForced T gaps lastCut = false := by
  intro gaps
  induction gaps with
  | nil => intro lastCut; rfl
  | cons gap rest ih =>
    intro lastCut
    show (if T * (1/2) ≤ gap.centerY - lastCut then
            selectLoopForced T rest gap.centerY
          else if T * 1 ≤ gap.centerY - lastCut ∧ (2/10 : ℚ) < gap.score then true
          else selectLoopForced T rest lastCut) = false
    by_cases h1 : T * (1/2) ≤ gap.centerY - lastCut
    · rw [if_pos h1]
      exact ih gap.centerY
    · rw [if_neg h1, if_neg ?_]
      · exact ih lastCut
      · rintro ⟨h2, _⟩
        apply h1
        linarith

/-- C4 witness: the loop never takes the secondary branch on a concrete gap
list with `T = 350`. -/
theorem secondary_branch_unreachable_witness :
    selectLoopForced 350 [mkGap 290 310 1000 DEFAULT_CONFIG] 0 = false :=
  secondary_branch_unreachable 350 (by norm_num) [mkGap 290 310 1000 DEFAULT_CONFIG] 0

/-- C5: a 1000px buffer whose rows classify as whitespace exactly on the two
20px bands centered at 300 and 700, with `T = 350` and the default
configuration, yields cuts `[0, 300, 700, 1000]`. -/
theorem scenarioB_cuts (img : ImageData) (hH : img.height = 1000)
    (hrows : detectWhitespaceRows img DEFAULT_CONFIG = scenarioBRows) :
    findCutPoints img 350 noOverrides = some [0, 300, 700, 1000] := by
  have hmerge : mergeConfig noOverrides = DEFAULT_CONFIG := rfl
  simp only [findCutPoints, hmerge, hH, hrows]
  with_unfolding_all decide

/-- C5 witness: the concrete scenario B pixel buffer. -/
theorem scenarioB_cuts_witness :
    findCutPoints scenarioBImg 350 noOverrides = some [0, 300, 700, 1000] :=
  scenarioB_cuts scenarioBImg (by with_unfolding_all decide) (by with_unfolding_all decide)

/-- C6: on an entirely black buffer (brightness 0 everywhere) with any
overrides and any `T > 0`, the detector returns no gaps and the selector
returns the spec's evenly spaced cuts: `0`, then `round(k·T)` while the
remaining distance to `H` exceeds `0.3·T`, then `H`. -/
theorem fallback_even_cuts (img : ImageData) (ov : PartialDetectionConfig) (T : ℚ)
    (hT : 0 < T)
    (hdark : ∀ y, y < img.height → ∀ x, x < img.width →
      img.data (y * img.width * 4 + x * 4) = 0 ∧
      img.data (y * img.width * 4 + x * 4 + 1) = 0 ∧
      img.data (y * img.width * 4 + x * 4 + 2) = 0) :
    detectGaps img (mergeConfig ov) = [] ∧
    findCutPoints img T ov = some (specEvenCuts ((img.height : ℕ) : ℚ) T) := by
  have hrows : detectWhitespaceRows img (mergeConfig ov) =
      List.replicate img.height
        (decide ((mergeConfig ov).whitespaceThreshold ≤ 0)) :=
    detectWhitespaceRows_eq_replicate (fun y hy => analyzeRow_dark (hdark y hy))
  have hgaps : findGaps (detectWhitespaceRows img (mergeConfig ov))
      ((img.height : ℕ) : ℚ) (mergeConfig ov) = [] := by
    rw [hrows]
    exact findGaps_replicate _ _ _ _
  refine ⟨hgaps, ?_⟩
  rw [findCutPoints_of_no_gaps hgaps, generateEvenCuts_eq_spec hT]

/-- C6 witness: a 10px dark page with `T = 2` gives `[0, 2, 4, 6, 8, 10]`. -/
theorem fallback_even_cuts_witness :
    detectGaps (darkImg 10) (mergeConfig noOverrides) = [] ∧
    findCutPoints (darkImg 10) 2 noOverrides = some (specEvenCuts ((10 : ℕ) : ℚ) 2) :=
  fallback_even_cuts (darkImg 10) noOverrides 2 (by norm_num) (by with_unfolding_all decide)

/-- C7 (amended): every gap produced by the detector has score in `(0, 1]`,
under the spec's configuration constraints strengthened by
`centerBias ≤ 2`.  (As stated the claim is false: `centerBias ≥ 0` alone
allows a large bias that drives the score negative.) -/
theorem detector_score_in_unit (img : ImageData) (cfg : DetectionConfig)
    (h1 : 0 ≤ cfg.whitespaceThreshold) (h2 : cfg.whitespaceThreshold ≤ 1)
    (h3 : 0 ≤ cfg.minGapHeight) (h4 : 0 ≤ cfg.edgeMargin)
    (h5 : 0 ≤ cfg.centerBias) (h6 : cfg.centerBias ≤ 2) :
    ∀ g ∈ detectGaps img cfg, 0 < g.score ∧ g.score ≤ 1 := by
  intro g hg
  have hg' : g ∈ findGaps (detectWhitespaceRows img cfg)
      ((img.height : ℕ) : ℚ) cfg := hg
  obtain ⟨hlt, _, _, hform, _, hm1, hm2⟩ := findGaps_sound hg'
  exact gap_score_bounds hform hlt hm1 hm2 h4 h5 h6

/-- C7 witness: with zero margin, minimum gap height 3, and the default
bias, the single gap of a concrete 10px page scores in `(0, 1]`. -/
theorem detector_score_in_unit_witness :
    0 < ((detectGaps smallBandImg ⟨95/100, 3, 0, 2/10⟩).headD
      (mkGap 0 0 0 DEFAULT_CONFIG)).score ∧
    ((detectGaps smallBandImg ⟨95/100, 3, 0, 2/10⟩).headD
      (mkGap 0 0 0 DEFAULT_CONFIG)).score ≤ 1 :=
  detector_score_in_unit smallBandImg ⟨95/100, 3, 0, 2/10⟩ (by norm_num) (by norm_num)
    (by norm_num) (by norm_num) (by norm_num) (by norm_num) _ (by with_unfolding_all decide)

/-- C7 counterexample: the configuration `⟨0.95, 3, 0, 10⟩` satisfies all the
spec's stated constraints (threshold in `[0,1]`, the rest nonnegative), yet
the detector emits a gap with negative score `-9/100` on a concrete page
with an off-center whitespace band. -/
theorem detector_score_cex :
    (0 ≤ smallBiasedConfig.whitespaceThreshold ∧
      smallBiasedConfig.whitespaceThreshold ≤ 1 ∧
      0 ≤ smallBiasedConfig.minGapHeight ∧ 0 ≤ smallBiasedConfig.edgeMargin ∧
      0 ≤ smallBiasedConfig.centerBias) ∧
    (detectGaps smallLateBandImg smallBiasedConfig).map WhitespaceGap.score =
      [(-9/100 : ℚ)] ∧
    ¬ (0 < (-9/100 : ℚ)) := by
  refine ⟨by with_unfolding_all decide, by with_unfolding_all decide, by with_unfolding_all decide⟩

/-- C8: with `minGapHeight = 15`, no emitted gap has height 10; and a maximal
20-row whitespace run (preceded by nothing or a non-whitespace row,
terminated by a non-whitespace row, with center strictly inside the margins)
is emitted as a gap starting at the run's first row. -/
theorem gap_filtering (pageH : ℚ) (cfg : DetectionConfig) (rows p t : List Bool)
    (hmin : cfg.minGapHeight = 15)
    (hp : p = [] ∨ p.getLast? = some false)
    (hm1 : cfg.edgeMargin < (p.length : ℚ) + 10)
    (hm2 : (p.length : ℚ) + 10 < pageH - cfg.edgeMargin) :
    (∀ g ∈ findGaps rows pageH cfg, g.height ≠ 10) ∧
    mkGap p.length (p.length + 20) pageH cfg ∈
      findGaps (p ++ (List.replicate 20 true ++ (false :: t))) pageH cfg := by
  constructor
  · intro g hg
    obtain ⟨_, _, _, _, h7, _, _⟩ := findGaps_sound hg
    rw [hmin] at h7
    intro heq
    rw [heq] at h7
    norm_num at h7
  · unfold findGaps
    rw [findGapsAux_append]
    have hscan : scanState p 0 none = none := by
      rcases hp with hpe | hpl
      · rw [hpe]; rfl
      · exact scanState_ends_false p 0 none hpl
    rw [hscan, findGapsAux_append, findGapsAux_replicate_true,
      scanState_replicate_true_none (by norm_num), List.length_replicate]
    simp only [Nat.zero_add]
    rw [findGapsAux_cons_false_some]
    have hheight : (mkGap p.length (p.length + 20) pageH cfg).height = 20 := by
      rw [mkGap_height]; push_cast; ring
    have hcenter : (mkGap p.length (p.length + 20) pageH cfg).centerY =
        (p.length : ℚ) + 10 := by
      rw [mkGap_centerY]; push_cast; ring
    rw [if_pos ⟨by rw [hmin, hheight]; norm_num,
      by rw [hcenter]; exact hm1, by rw [hcenter]; exact hm2⟩]
    simp

/-- C8 witness: a 20-row run after 30 dark rows, margin 20, page height 100. -/
theorem gap_filtering_witness :
    mkGap 30 50 100 gapFilterCfg ∈
      findGaps (List.replicate 30 false ++ (List.replicate 20 true ++
        (false :: List.replicate 10 false))) 100 gapFilterCfg :=
  (gap_filtering 100 gapFilterCfg [] (List.replicate 30 false)
    (List.replicate 10 false) rfl (Or.inr (by with_unfolding_all decide)) (by with_unfolding_all decide) (by with_unfolding_all decide)).2

/-- C9: with `edgeMargin = 50` every emitted gap has center strictly greater
than 50, so no gap centered at `y = 10` ever appears, regardless of height. -/
theorem edge_margin_excludes (img : ImageData) (cfg : DetectionConfig)
    (hmargin : cfg.edgeMargin = 50) :
    ∀ g ∈ detectGaps img cfg, g.centerY ≠ 10 := by
  intro g hg
  have hg' : g ∈ findGaps (detectWhitespaceRows img cfg)
      ((img.height : ℕ) : ℚ) cfg := hg
  obtain ⟨_, _, _, _, _, hm1, _⟩ := findGaps_sound hg'
  rw [hmargin] at hm1
  intro h
  rw [h] at hm1
  norm_num at hm1

/-- C9 witness: the gap of a concrete page under the default margin 50. -/
theorem edge_margin_excludes_witness :
    ((detectGaps bandImg80 DEFAULT_CONFIG).headD
      (mkGap 0 0 0 DEFAULT_CONFIG)).centerY ≠ 10 :=
  edge_margin_excludes bandImg80 DEFAULT_CONFIG rfl _ (by with_unfolding_all decide)

/-- C10: every emitted gap ends strictly before the last row, at a row
classified as non-whitespace — a whitespace run reaching the page end emits
no gap; consequently an all-white page yields an empty gap list and
`findCutPoints` takes the even-spacing fallback. -/
theorem trailing_run_no_gap (img : ImageData) (ov : PartialDetectionConfig) (T : ℚ) :
    (∀ g ∈ detectGaps img (mergeConfig ov),
      g.endY < img.height ∧
      (detectWhitespaceRows img (mergeConfig ov)).getD g.endY true = false) ∧
    ((∀ y, y < img.height → ∀ x, x < img.width →
        img.data (y * img.width * 4 + x * 4) = 255 ∧
        img.data (y * img.width * 4 + x * 4 + 1) = 255 ∧
        img.data (y * img.width * 4 + x * 4 + 2) = 255) →
      detectGaps img (mergeConfig ov) = [] ∧
      findCutPoints img T ov = generateEvenCuts ((img.height : ℕ) : ℚ) T) := by
  constructor
  · intro g hg
    have hg' : g ∈ findGaps (detectWhitespaceRows img (mergeConfig ov))
        ((img.height : ℕ) : ℚ) (mergeConfig ov) := hg
    obtain ⟨_, h2, h3, _, _, _, _⟩ := findGaps_sound hg'
    rw [detectWhitespaceRows_length] at h2
    exact ⟨h2, h3⟩
  · intro hwhite
    have hrows : detectWhitespaceRows img (mergeConfig ov) =
        List.replicate img.height
          (decide ((mergeConfig ov).whitespaceThreshold ≤
            (img.width : ℚ) / (img.width : ℚ))) :=
      detectWhitespaceRows_eq_replicate (fun y hy => analyzeRow_white (hwhite y hy))
    have hgaps : findGaps (detectWhitespaceRows img (mergeConfig ov))
        ((img.height : ℕ) : ℚ) (mergeConfig ov) = [] := by
      rw [hrows]
      exact findGaps_replicate _ _ _ _
    exact ⟨hgaps, findCutPoints_of_no_gaps hgaps⟩

/-- C10 witness: an 8px all-white page with `T = 3` falls back to even cuts. -/
theorem trailing_run_no_gap_witness :
    detectGaps (whiteImg 8) (mergeConfig noOverrides) = [] ∧
    findCutPoints (whiteImg 8) 3 noOverrides = generateEvenCuts ((8 : ℕ) : ℚ) 3 :=
  (trailing_run_no_gap (whiteImg 8) noOverrides 3).2 (by with_unfolding_all decide)
